import Mathlib

/-!
Verification development for the gallery multi-file ingestion and upload
pipeline.  The definitions below are a shallow embedding of the relevant
TypeScript source:

* `src/lib/image-processing.ts` — thumbnail dimension computation
  (`generateThumbnail`), thumbnail filename derivation
  (`getThumbnailFilename`), EXIF capture-date resolution
  (`extractImageDate`);
* `src/lib/r2.ts` — `uploadToPresignedUrl` (XHR progress callback values)
  and `generateUploadUrls` (fixed content types);
* `src/components/admin/UploadModal.tsx` — the batch upload coordinator
  (`handleUpload`), file selection (`handleFileSelect`) and removal
  (`removeFile`).

JavaScript numbers are modelled with exact rationals (`ℚ`); the claims
verified here are order/equality claims that are robust to this choice.
Network and browser outcomes (fetch success, XHR progress events) are
modelled as explicit environment data fed to the embedded functions.
-/

namespace Gallery

/-! ## Image processing: thumbnail dimensions (`generateThumbnail`) -/

/-- `THUMBNAIL_MAX_SIZE` from `image-processing.ts`. -/
def THUMBNAIL_MAX_SIZE : ℕ := 800

/--
Dimension computation inside `generateThumbnail`'s `img.onload`:

  let { width, height } = img;
  if (width > THUMBNAIL_MAX_SIZE || height > THUMBNAIL_MAX_SIZE) {
    const scale = Math.min(THUMBNAIL_MAX_SIZE / width, THUMBNAIL_MAX_SIZE / height);
    width = Math.round(width * scale);
    height = Math.round(height * scale);
  }

`Math.round` is round-half-toward-positive-infinity, which is Mathlib's
`round` on `ℚ`. -/
def thumbnailDims (width height : ℕ) : ℤ × ℤ :=
  if width > THUMBNAIL_MAX_SIZE ∨ height > THUMBNAIL_MAX_SIZE then
    let scale : ℚ :=
      min ((THUMBNAIL_MAX_SIZE : ℚ) / width) ((THUMBNAIL_MAX_SIZE : ℚ) / height)
    (round ((width : ℚ) * scale), round ((height : ℚ) * scale))
  else
    ((width : ℤ), (height : ℤ))

/-! ## Image processing: thumbnail filename (`getThumbnailFilename`) -/

/--
`originalFilename.replace(/\.[^.]+$/, "")` on the character list: the
regex removes a final dot followed by one or more non-dot characters at
the end of the string; otherwise the string is unchanged. -/
def stripExtAux (cs : List Char) : List Char :=
  let rev := cs.reverse
  let ext := rev.takeWhile (fun c => c ≠ '.')
  if ext.length = rev.length ∨ ext.length = 0 then cs
  else ((rev.drop (ext.length + 1)).reverse)

/-- `originalFilename.replace(/\.[^.]+$/, "")`. -/
def stripExt (s : String) : String := ⟨stripExtAux s.data⟩

/-- `getThumbnailFilename` from `image-processing.ts`. -/
def getThumbnailFilename (originalFilename : String) : String :=
  stripExt originalFilename ++ "-thumb.webp"

/-! ## Image processing: capture-date resolution (`extractImageDate`) -/

/-- The three EXIF tag descriptions read by `extractImageDate`, each
`Option` because the tag may be absent (`tags["…"]?.description`). -/
structure ExifTags where
  dateTimeOriginal : Option String
  dateTime : Option String
  dateTimeDigitized : Option String
deriving DecidableEq, Repr

/-- The possible results of `extractImageDate`, kept structural: a JS
`Date` built from parsed parts (`new Date(y, mo, d, h, mi, s)`, month
already decremented), an Invalid Date (some component was `NaN`), a date
from epoch milliseconds (`new Date(file.lastModified)`), or the current
time (`new Date()`). -/
inductive JSDate where
  | fromParts (year month day hour minute second : ℤ)
  | invalid
  | fromMillis (ms : ℤ)
  | now
deriving DecidableEq, Repr

/-- Leading decimal digits folded to a number; `none` when there is no
digit (JS `NaN`). -/
def parseDigits (cs : List Char) : Option ℕ :=
  let ds := cs.takeWhile Char.isDigit
  if ds.isEmpty then none
  else some (ds.foldl (fun a c => a * 10 + (c.toNat - 48)) 0)

/-- JS `parseInt` restricted to base-10 inputs as they occur in EXIF date
strings: skip leading whitespace, optional sign, then a maximal digit
prefix; `none` models `NaN`. -/
def parseIntOpt (s : String) : Option ℤ :=
  let cs := s.data.dropWhile (fun c => c = ' ' ∨ c = '\t' ∨ c = '\n' ∨ c = '\r')
  match cs with
  | '-' :: rest => (parseDigits rest).map (fun n => -(n : ℤ))
  | '+' :: rest => (parseDigits rest).map (fun n => (n : ℤ))
  | _ => (parseDigits cs).map (fun n => (n : ℤ))

/-- JS truthiness for an optional string (`undefined` and `""` are
falsy). -/
def strTruthy : Option String → Bool
  | none => false
  | some s => s ≠ ""

/-- JS `a || b` on optional strings. -/
def jsOr (a b : Option String) : Option String :=
  if strTruthy a then a else b

/-- The fallback at the end of `extractImageDate`:
`file.lastModified ? new Date(file.lastModified) : new Date()`.
Note that `0` is falsy in JS. -/
def dateFallback (lastModified : ℤ) : JSDate :=
  if lastModified ≠ 0 then JSDate.fromMillis lastModified else JSDate.now

/-- JS `str.split(sep)` for a single-character separator, on the
character list (accumulator holds the current chunk reversed). -/
def splitCharAux (sep : Char) : List Char → List Char → List (List Char)
  | [], acc => [acc.reverse]
  | c :: cs, acc =>
      if c = sep then acc.reverse :: splitCharAux sep cs []
      else splitCharAux sep cs (c :: acc)

/-- JS `str.split(sep)` for a single-character separator (the only form
`extractImageDate` uses: `" "` and `":"`). -/
def jsSplit (s : String) (sep : Char) : List String :=
  (splitCharAux sep s.data []).map (fun cs => ⟨cs⟩)

/-- The date-string parsing branch of `extractImageDate`:

  const [datePart, timePart] = dateString.split(" ");
  const [year, month, day] = datePart.split(":");
  const [hour, minute, second] = timePart?.split(":") || ["00", "00", "00"];
  return new Date(parseInt(year), parseInt(month) - 1, parseInt(day),
                  parseInt(hour), parseInt(minute), parseInt(second));

A `NaN` anywhere yields an Invalid Date. -/
def parseExifDateString (ds : String) : JSDate :=
  let parts := jsSplit ds ' '
  let datePart := (parts.get? 0).getD ""
  let timePart := parts.get? 1
  let dparts := jsSplit datePart ':'
  let tparts := match timePart with
    | none => ["00", "00", "00"]
    | some tp => jsSplit tp ':'
  let y := (dparts.get? 0).bind parseIntOpt
  let mo := (dparts.get? 1).bind parseIntOpt
  let d := (dparts.get? 2).bind parseIntOpt
  let h := (tparts.get? 0).bind parseIntOpt
  let mi := (tparts.get? 1).bind parseIntOpt
  let s := (tparts.get? 2).bind parseIntOpt
  match y, mo, d, h, mi, s with
  | some y, some mo, some d, some h, some mi, some s =>
      JSDate.fromParts y (mo - 1) d h mi s
  | _, _, _, _, _, _ => JSDate.invalid

/-- `extractImageDate` from `image-processing.ts`.  `tags = none` models
`ExifReader.load` (or `file.arrayBuffer`) throwing, which the `catch`
swallows before falling through to the fallback. -/
def extractImageDate (tags : Option ExifTags) (lastModified : ℤ) : JSDate :=
  match tags with
  | none => dateFallback lastModified
  | some t =>
    let dateString := jsOr (jsOr t.dateTimeOriginal t.dateTime) t.dateTimeDigitized
    match dateString with
    | some ds => if ds = "" then dateFallback lastModified else parseExifDateString ds
    | none => dateFallback lastModified

/-! ## Upload Target Client (`src/lib/r2.ts`) -/

/-- An XHR upload `progress` event as observed by `uploadToPresignedUrl`'s
listener: `event.lengthComputable`, `event.loaded`, `event.total`. -/
structure XhrProgressEvent where
  lengthComputable : Bool
  loaded : ℚ
  total : ℚ
deriving DecidableEq, Repr

/-- The listener body in `uploadToPresignedUrl`:

  xhr.upload.addEventListener("progress", (event) => {
    if (event.lengthComputable && onProgress) {
      const progress = (event.loaded / event.total) * 100;
      onProgress(progress);
    }
  });

Given the stream of progress events of one transfer, this is the list of
values passed to `onProgress` (when a callback is supplied). -/
def uploadProgressCalls (events : List XhrProgressEvent) : List ℚ :=
  (events.filter (fun e => e.lengthComputable)).map
    (fun e => e.loaded / e.total * 100)

/-- A presigned target as produced by `generatePresignedUploadUrl` on the
server: the object key and the content type baked into the signature.
The URL-signing cryptography itself is opaque; what the claims need is
which filename is signed with which content type. -/
structure SignedTarget where
  filename : String
  contentType : String
deriving DecidableEq, Repr

/-- `generatePresignedUploadUrl(filename, contentType)`: signs a PUT for
this object key with this content type. -/
def generatePresignedUploadUrl (filename contentType : String) : SignedTarget :=
  ⟨filename, contentType⟩

/-- `generateUploadUrls` from `src/lib/r2.ts`: the original is signed
with `"image/jpeg"`, the thumbnail with `"image/webp"`. -/
def generateUploadUrls (filename thumbnailFilename : String) :
    SignedTarget × SignedTarget :=
  (generatePresignedUploadUrl filename "image/jpeg",
   generatePresignedUploadUrl thumbnailFilename "image/webp")

/-! ## Ingestion Coordinator (`UploadModal.tsx`) -/

/-- `UploadState["status"]`. -/
inductive Status where
  | pending
  | processing
  | uploading
  | done
  | error
deriving DecidableEq, Repr

/-- `ProcessedImage` from `image-processing.ts` (the binary blobs are
opaque; the coordinator only forwards them). -/
structure ProcessedImage where
  originalFilename : String
  thumbnailFilename : String
  date : JSDate
deriving DecidableEq, Repr

/-- `UploadState` from `UploadModal.tsx`. -/
structure UploadState where
  status : Status
  progress : ℚ
  error : Option String
  processed : Option ProcessedImage
deriving DecidableEq, Repr

/-- The outcome the environment (network + storage) provides for one
`uploadToPresignedUrl` call: the `onProgress` values delivered (already
in percent, as computed by the listener above), whether the transfer
resolved, and the message `String(error)` would yield on rejection. -/
structure TransferOutcome where
  events : List ℚ
  ok : Bool
  errMsg : String
deriving DecidableEq, Repr

/-- Well-formedness of a transfer outcome, encoding what the XHR
specification guarantees for a `Blob` body of known length: progress
values are percentages in `[0,100]`, non-decreasing, and a transfer that
resolves has fired a final progress event with `loaded = total`
(value `100`) once the body was fully transmitted. -/
def TransferOutcome.WF (t : TransferOutcome) : Prop :=
  (∀ v ∈ t.events, 0 ≤ v ∧ v ≤ 100) ∧
  t.events.Pairwise (· ≤ ·) ∧
  (t.ok = true → t.events.getLast? = some 100)

/-- Environment outcomes for one file's upload sequence: the
`/api/upload` fetch (`urlRes.ok`), the two transfers, and the
`/api/photos` fetch (`photoRes.ok`). -/
structure FileEnv where
  urlOk : Bool
  orig : TransferOutcome
  thumb : TransferOutcome
  photoOk : Bool
deriving DecidableEq, Repr

/-- Observable calls issued by the coordinator during a batch, tagged by
file index: the `/api/upload` acquisition fetch, an
`uploadToPresignedUrl` transfer, and the `/api/photos` record creation. -/
inductive Event where
  | acquire (i : ℕ) (filename thumbnailFilename : String)
  | transferOriginal (i : ℕ) (contentType : String)
  | transferThumbnail (i : ℕ) (contentType : String)
  | createRecord (i : ℕ) (url thumbnail : String) (date : JSDate)
      (collectionIds : List String)
deriving DecidableEq, Repr

/-- The file index an event is tagged with. -/
def Event.idx : Event → ℕ
  | .acquire i _ _ => i
  | .transferOriginal i _ => i
  | .transferThumbnail i _ => i
  | .createRecord i _ _ _ _ => i

/-- Recognizer for acquisition events. -/
def Event.isAcquire : Event → Bool
  | .acquire _ _ _ => true
  | _ => false

/-- Recognizer for transfer events (either payload). -/
def Event.isTransfer : Event → Bool
  | .transferOriginal _ _ => true
  | .transferThumbnail _ _ => true
  | _ => false

/-- Recognizer for record-creation events. -/
def Event.isCreateRecord : Event → Bool
  | .createRecord _ _ _ _ _ => true
  | _ => false

/-- Replaying a sequence of absolute progress assignments
(`updateFileProgress(i, map v)`); the file keeps its previous progress
when no callback fired. -/
def applyProgress (map : ℚ → ℚ) (cur : ℚ) (events : List ℚ) : ℚ :=
  match events.getLast? with
  | some v => map v
  | none => cur

/-- The body of `handleUpload`'s per-file `try`/`catch` for an eligible
file (status `pending` with a `processed` payload), given the
environment's outcomes.  Mirrors the source control flow:
`updateFileStatus(i, "uploading")` (which also clears `error`), the
`/api/upload` fetch, the original transfer mapping progress by
`progress * 0.5`, the thumbnail transfer mapping by
`50 + progress * 0.5`, the `/api/photos` fetch, then
`updateFileStatus(i, "done")` and `updateFileProgress(i, 100)`; any
failure is caught and stored via `updateFileStatus(i, "error",
String(error))`, freezing progress at its last value. -/
def fileOutcome (colls : List String) (fe : FileEnv) (i : ℕ)
    (p : ProcessedImage) (f : UploadState) : UploadState × List Event :=
  let base : UploadState := { f with status := Status.uploading, error := none }
  let evAcq := Event.acquire i p.originalFilename p.thumbnailFilename
  let afterOrig : UploadState :=
    { base with progress := applyProgress (fun v => v * (1 / 2)) base.progress fe.orig.events }
  let evOrig := Event.transferOriginal i "image/jpeg"
  let afterThumb : UploadState :=
    { afterOrig with progress :=
        applyProgress (fun v => 50 + v * (1 / 2)) afterOrig.progress fe.thumb.events }
  let evThumb := Event.transferThumbnail i "image/webp"
  let evRec := Event.createRecord i p.originalFilename p.thumbnailFilename p.date colls
  match fe.urlOk, fe.orig.ok, fe.thumb.ok, fe.photoOk with
  | false, _, _, _ =>
      ({ base with status := Status.error,
                   error := some "Error: Failed to get upload URLs" },
       [evAcq])
  | true, false, _, _ =>
      ({ afterOrig with status := Status.error, error := some fe.orig.errMsg },
       [evAcq, evOrig])
  | true, true, false, _ =>
      ({ afterThumb with status := Status.error, error := some fe.thumb.errMsg },
       [evAcq, evOrig, evThumb])
  | true, true, true, false =>
      ({ afterThumb with status := Status.error,
                         error := some "Error: Failed to create photo record" },
       [evAcq, evOrig, evThumb, evRec])
  | true, true, true, true =>
      ({ afterThumb with status := Status.done, error := none, progress := 100 },
       [evAcq, evOrig, evThumb, evRec])

/-- One iteration of `handleUpload`'s loop at index `i`:
`if (uploadState.status !== "pending" || !uploadState.processed) continue`. -/
def stepFile (colls : List String) (fe : FileEnv) (i : ℕ)
    (f : UploadState) : UploadState × List Event :=
  match f.processed with
  | some p => if f.status = Status.pending then fileOutcome colls fe i p f else (f, [])
  | none => (f, [])

/-- The upload loop (`for (let i = 0; i < files().length; i++)`), run
over the file list with one `FileEnv` per file.  Each iteration touches
only its own entry, so the loop is structural recursion over the list
(derivation callbacks interleaving with the loop are modelled
separately, on the selection/removal side). -/
def runLoop (colls : List String) :
    ℕ → List UploadState → List FileEnv → List UploadState × List Event
  | _, [], _ => ([], [])
  | _, f :: fs, [] => (f :: fs, [])
  | i, f :: fs, fe :: fes =>
      let r := stepFile colls fe i f
      let rest := runLoop colls (i + 1) fs fes
      (r.1 :: rest.1, r.2 ++ rest.2)

/-- `f.status === "pending" && f.processed` — the eligibility filter used
both for the precondition check (`readyFiles`) and by each loop
iteration. -/
def isEligible (f : UploadState) : Bool :=
  decide (f.status = Status.pending) && f.processed.isSome

/-- A terminal status (`done` or `error`). -/
def isSettled (f : UploadState) : Bool :=
  decide (f.status = Status.done) || decide (f.status = Status.error)

/-- Result of one `handleUpload` trigger: the final file list, the trace
of backend/storage calls, and whether `props.onUploadComplete()` was
invoked. -/
structure UploadResult where
  files : List UploadState
  trace : List Event
  completed : Bool
deriving DecidableEq, Repr

/-- `handleUpload` from `UploadModal.tsx`: the two precondition checks
(`selectedCollections().length === 0`, `readyFiles.length === 0`) return
before any per-file work; otherwise the loop runs, and afterwards
`onUploadComplete` is invoked iff every file is `done` or `error` and at
least one is `done`. -/
def handleUpload (colls : List String) (files : List UploadState)
    (env : List FileEnv) : UploadResult :=
  if colls.length = 0 then ⟨files, [], false⟩
  else if (files.filter isEligible).length = 0 then ⟨files, [], false⟩
  else
    let r := runLoop colls 0 files env
    ⟨r.1, r.2, r.1.all isSettled && r.1.any (fun f => decide (f.status = Status.done))⟩

/-! ## File selection, derivation callbacks and removal (`UploadModal.tsx`)

`handleFileSelect` appends the chosen files and spawns one async
derivation task per file.  Each task captures `actualIndex =
files().length - newFiles.length + index` at selection time and later
writes its result back at that captured index, whether or not the list
has changed in between.  `removeFile(i)` filters index `i` out of the
list, shifting later entries down.  The model below replays these
operations as explicit steps. -/

/-- Outcome of one `processImage` call (chosen by the environment at
selection time, delivered when the task fires). -/
inductive DeriveOutcome where
  | ok (p : ProcessedImage)
  | fail (msg : String)
deriving DecidableEq, Repr

/-- An in-flight derivation: the index captured at selection time and
the outcome it will deliver. -/
structure DeriveTask where
  capturedIndex : ℕ
  outcome : DeriveOutcome
deriving DecidableEq, Repr

/-- The coordinator-owned state: the reactive file list plus the pending
derivation tasks. -/
structure ModalState where
  files : List UploadState
  tasks : List DeriveTask
deriving DecidableEq, Repr

/-- `updated[i] = { ...updated[i], ...patch }` for an in-bounds index
(the scenarios verified here stay in bounds; JS would grow the array on
an out-of-bounds write, which `List.set` instead leaves unchanged). -/
def setAt (files : List UploadState) (i : ℕ)
    (patch : UploadState → UploadState) : List UploadState :=
  match files.get? i with
  | some f => files.set i (patch f)
  | none => files

/-- `handleFileSelect`: append one `pending` entry per chosen file, then
each spawned task synchronously runs `updateFileStatus(actualIndex,
"processing")` (which also clears `error`) before suspending on
`processImage`.  The net effect on the list is appending `processing`
entries; one task per file is registered with its captured index. -/
def selectFiles (s : ModalState) (outcomes : List DeriveOutcome) : ModalState :=
  let base := s.files.length
  { files := s.files ++ outcomes.map
      (fun _ => { status := Status.processing, progress := 0,
                  error := none, processed := none }),
    tasks := s.tasks ++ outcomes.enum.map (fun pr => ⟨base + pr.1, pr.2⟩) }

/-- Firing pending derivation task `t`: on success the task writes
`{ ...updated[actualIndex], processed, status: "pending" }` (note:
`error` untouched) at its captured index; on failure it runs
`updateFileStatus(actualIndex, "error", String(error))`.  The task is
consumed. -/
def fireTask (s : ModalState) (t : ℕ) : ModalState :=
  match s.tasks.get? t with
  | none => s
  | some task =>
      let files' := match task.outcome with
        | DeriveOutcome.ok p =>
            setAt s.files task.capturedIndex
              (fun f => { f with processed := some p, status := Status.pending })
        | DeriveOutcome.fail msg =>
            setAt s.files task.capturedIndex
              (fun f => { f with status := Status.error, error := some msg })
      { files := files', tasks := s.tasks.eraseIdx t }

/-- `removeFile(i)`: `prev.filter((_, idx) => idx !== i)`. -/
def removeFileOp (s : ModalState) (i : ℕ) : ModalState :=
  { s with files := s.files.eraseIdx i }

/-! ## Helper lemmas -/

/-- `Math.round` (Mathlib `round` on `ℚ`) is monotone. -/
lemma round_mono_q {x y : ℚ} (hxy : x ≤ y) : round x ≤ round y := by
  rw [round_eq, round_eq]
  exact Int.floor_le_floor (by linarith)

/-- The last element reported by `getLast?` is a member of the list. -/
lemma mem_of_getLast?_eq {α : Type} {l : List α} {a : α}
    (h : l.getLast? = some a) : a ∈ l := by
  obtain ⟨hne, rfl⟩ := List.mem_getLast?_eq_getLast (l := l) (x := a) h
  exact List.getLast_mem hne

/-- `takeWhile` stops exactly at the first violating element. -/
lemma takeWhile_all_append {α : Type} (p : α → Bool) (l₁ : List α) (x : α)
    (l₂ : List α) (h : ∀ c ∈ l₁, p c = true) (hx : p x = false) :
    (l₁ ++ x :: l₂).takeWhile p = l₁ := by
  induction l₁ with
  | nil => simp [List.takeWhile_cons, hx]
  | cons a as ih =>
      have ha : p a = true := h a (by simp)
      simp [List.takeWhile_cons, ha, ih (fun c hc => h c (by simp [hc]))]

/-! ## C7: thumbnail dimensions -/

/-- C7: For every decodable image input (positive input dimensions), the
generated preview's width and height are both at most 800, dimensions
are never scaled up (inputs already within 800×800 pass through
unchanged), and the output dimensions are the roundings of the input
dimensions under one common scale factor `s ≤ 1`, so the aspect ratio is
preserved up to the rounding of each dimension to the nearest integer. -/
theorem thumbnailDims_spec (w h : ℕ) (hw : 0 < w) (hh : 0 < h) :
    ((thumbnailDims w h).1 ≤ 800 ∧ (thumbnailDims w h).2 ≤ 800) ∧
    (w ≤ 800 → h ≤ 800 → thumbnailDims w h = ((w : ℤ), (h : ℤ))) ∧
    (∃ s : ℚ, 0 < s ∧ s ≤ 1 ∧
      (thumbnailDims w h).1 = round ((w : ℚ) * s) ∧
      (thumbnailDims w h).2 = round ((h : ℚ) * s)) := by
  have hw' : (0 : ℚ) < (w : ℚ) := by exact_mod_cast hw
  have hh' : (0 : ℚ) < (h : ℚ) := by exact_mod_cast hh
  by_cases hbig : 800 < w ∨ 800 < h
  · have hdef : thumbnailDims w h =
        (round ((w : ℚ) * min (800 / (w : ℚ)) (800 / (h : ℚ))),
         round ((h : ℚ) * min (800 / (w : ℚ)) (800 / (h : ℚ)))) := by
      simp only [thumbnailDims, THUMBNAIL_MAX_SIZE]
      rw [if_pos hbig]
      norm_num
    set s : ℚ := min (800 / (w : ℚ)) (800 / (h : ℚ)) with hs
    have hspos : 0 < s := lt_min (div_pos (by norm_num) hw') (div_pos (by norm_num) hh')
    have hs1 : s ≤ 1 := by
      rcases hbig with hb | hb
      · have hbq : (800 : ℚ) < (w : ℚ) := by exact_mod_cast hb
        exact le_trans (min_le_left _ _) (le_of_lt ((div_lt_one hw').2 hbq))
      · have hbq : (800 : ℚ) < (h : ℚ) := by exact_mod_cast hb
        exact le_trans (min_le_right _ _) (le_of_lt ((div_lt_one hh').2 hbq))
    have hws : (w : ℚ) * s ≤ 800 := by
      have h1 : s ≤ 800 / (w : ℚ) := min_le_left _ _
      calc (w : ℚ) * s ≤ (w : ℚ) * (800 / (w : ℚ)) :=
            mul_le_mul_of_nonneg_left h1 (le_of_lt hw')
        _ = 800 := by field_simp
    have hhs : (h : ℚ) * s ≤ 800 := by
      have h1 : s ≤ 800 / (h : ℚ) := min_le_right _ _
      calc (h : ℚ) * s ≤ (h : ℚ) * (800 / (h : ℚ)) :=
            mul_le_mul_of_nonneg_left h1 (le_of_lt hh')
        _ = 800 := by field_simp
    have h800 : round ((800 : ℚ)) = 800 := by norm_num [round_eq]
    refine ⟨⟨?_, ?_⟩, ?_, ⟨s, hspos, hs1, ?_, ?_⟩⟩
    · rw [hdef]
      exact le_trans (round_mono_q hws) (le_of_eq h800)
    · rw [hdef]
      exact le_trans (round_mono_q hhs) (le_of_eq h800)
    · intro hw8 hh8
      exfalso
      rcases hbig with hb | hb <;> omega
    · rw [hdef]
    · rw [hdef]
  · have hble : ¬ (w > THUMBNAIL_MAX_SIZE ∨ h > THUMBNAIL_MAX_SIZE) := by
      simpa [THUMBNAIL_MAX_SIZE] using hbig
    have hdef : thumbnailDims w h = ((w : ℤ), (h : ℤ)) := by
      simp only [thumbnailDims]
      rw [if_neg hble]
    push_neg at hbig
    refine ⟨⟨?_, ?_⟩, fun _ _ => hdef, ⟨1, one_pos, le_refl 1, ?_, ?_⟩⟩
    · rw [hdef]
      show (w : ℤ) ≤ 800
      exact_mod_cast hbig.1
    · rw [hdef]
      show (h : ℤ) ≤ 800
      exact_mod_cast hbig.2
    · rw [hdef]; simp
    · rw [hdef]; simp

/-- C7 witness: a 1600×1200 input is scaled to 800×600. -/
theorem thumbnailDims_spec_witness :
    ((thumbnailDims 1600 1200).1 ≤ 800 ∧ (thumbnailDims 1600 1200).2 ≤ 800) ∧
    (1600 ≤ 800 → 1200 ≤ 800 → thumbnailDims 1600 1200 = ((1600 : ℤ), (1200 : ℤ))) ∧
    (∃ s : ℚ, 0 < s ∧ s ≤ 1 ∧
      (thumbnailDims 1600 1200).1 = round ((1600 : ℚ) * s) ∧
      (thumbnailDims 1600 1200).2 = round ((1200 : ℚ) * s)) :=
  thumbnailDims_spec 1600 1200 (by norm_num) (by norm_num)

/-! ## C9: thumbnail filename -/

/-- C9 counterexample: the regex `/\.[^.]+$/` requires at least one
non-dot character after the final dot, so a filename ending in a bare
dot keeps that dot, contradicting the claim that the last dot and
everything after it is removed (which would give `"a-thumb.webp"`). -/
theorem getThumbnailFilename_trailing_dot_cex :
    getThumbnailFilename "a." = "a.-thumb.webp" ∧
    "a.-thumb.webp" ≠ "a-thumb.webp" := by
  constructor
  · rfl
  · decide

/-- The regex replacement on a list split at its last dot: everything
after the final dot is non-dot and non-empty, so it is stripped together
with the dot. -/
lemma stripExtAux_strips (l₁ l₂ : List Char) (hb : l₂ ≠ [])
    (hdot : ∀ c ∈ l₂, c ≠ '.') : stripExtAux (l₁ ++ '.' :: l₂) = l₁ := by
  have hrev : (l₁ ++ '.' :: l₂).reverse = l₂.reverse ++ '.' :: l₁.reverse := by
    simp
  have hall : ∀ c ∈ l₂.reverse, (decide (c ≠ '.')) = true := by
    intro c hc
    simpa using hdot c (List.mem_reverse.1 hc)
  have htake : (l₂.reverse ++ '.' :: l₁.reverse).takeWhile
      (fun c => decide (c ≠ '.')) = l₂.reverse :=
    takeWhile_all_append _ _ _ _ hall (by simp)
  have hlen1 : ¬ (l₂.reverse.length =
      (l₂.reverse ++ '.' :: l₁.reverse).length ∨ l₂.reverse.length = 0) := by
    push_neg
    constructor
    · simp only [List.length_append, List.length_cons, List.length_reverse]
      omega
    · simp only [List.length_reverse]
      intro h0
      exact hb (List.length_eq_zero.1 h0)
  have hdrop : (l₂.reverse ++ '.' :: l₁.reverse).drop
      (l₂.reverse.length + 1) = l₁.reverse := by
    have he : l₂.reverse ++ '.' :: l₁.reverse =
        (l₂.reverse ++ ['.']) ++ l₁.reverse := by simp
    have hlen : (l₂.reverse ++ ['.']).length = l₂.reverse.length + 1 := by simp
    rw [he, ← hlen, List.drop_left]
  unfold stripExtAux
  simp only [hrev, htake]
  rw [if_neg hlen1, hdrop, List.reverse_reverse]

/-- C9 amended: for every filename with a genuine final extension (a
last dot followed by one or more characters none of which is a dot),
the preview filename is the base name with `"-thumb.webp"` appended;
in particular `"photo.jpg"` maps to `"photo-thumb.webp"`.  (A filename
whose final dot is its last character is left intact by the regex.) -/
theorem getThumbnailFilename_strips_extension (a b : String) (hb : b.data ≠ [])
    (hdot : ∀ c ∈ b.data, c ≠ '.') :
    getThumbnailFilename (a ++ "." ++ b) = a ++ "-thumb.webp" ∧
    getThumbnailFilename "photo.jpg" = "photo-thumb.webp" := by
  refine ⟨?_, rfl⟩
  have hdata : (a ++ "." ++ b).data = a.data ++ '.' :: b.data := by
    simp [String.data_append]
  have hstrip : stripExt (a ++ "." ++ b) = a := by
    unfold stripExt
    rw [hdata, stripExtAux_strips a.data b.data hb hdot]
  unfold getThumbnailFilename
  rw [hstrip]

/-- C9 amended witness: `"photo" ++ "." ++ "jpg"`. -/
theorem getThumbnailFilename_strips_extension_witness :
    getThumbnailFilename ("photo" ++ "." ++ "jpg") = "photo" ++ "-thumb.webp" ∧
    getThumbnailFilename "photo.jpg" = "photo-thumb.webp" :=
  getThumbnailFilename_strips_extension "photo" "jpg" (by decide) (by decide)

/-! ## C8: capture-date resolution -/

/-- C8 counterexample: a present but malformed metadata date string is
parsed into an Invalid Date (`new Date(NaN, …)`) and returned as-is —
the code does not fall back to the last-modified timestamp when parsing
fails, contrary to the claim. -/
theorem extractImageDate_malformed_cex :
    extractImageDate (some ⟨some "banana", none, none⟩) 5 = JSDate.invalid ∧
    (5 : ℤ) ≠ 0 ∧
    JSDate.invalid ≠ JSDate.fromMillis 5 := by
  refine ⟨?_, by decide, by decide⟩
  rfl

/-- C8 amended: the last-modified fallback applies when no metadata date
field is (truthily) present, or when metadata extraction itself throws —
not when a present date string fails to parse.  With every metadata date
field absent or empty and a non-zero last-modified time, the result is
exactly the last-modified time; with a zero ("absent") last-modified
time it is the current time. -/
theorem extractImageDate_fallback (t : ExifTags) (lm : ℤ)
    (h1 : strTruthy t.dateTimeOriginal = false)
    (h2 : strTruthy t.dateTime = false)
    (h3 : strTruthy t.dateTimeDigitized = false) :
    (lm ≠ 0 → extractImageDate (some t) lm = JSDate.fromMillis lm) ∧
    (lm = 0 → extractImageDate (some t) lm = JSDate.now) ∧
    (lm ≠ 0 → extractImageDate none lm = JSDate.fromMillis lm) := by
  obtain ⟨o1, o2, o3⟩ := t
  simp only at h1 h2 h3
  have hfb : ∀ lm' : ℤ, lm' ≠ 0 → dateFallback lm' = JSDate.fromMillis lm' := by
    intro lm' hlm'
    simp [dateFallback, hlm']
  have hmain : extractImageDate (some ⟨o1, o2, o3⟩) lm = dateFallback lm := by
    have e1 : jsOr o1 o2 = o2 := by simp [jsOr, h1]
    cases o3 with
    | none =>
        have e2 : jsOr o2 none = none := by simp [jsOr, h2]
        simp [extractImageDate, e1, e2]
    | some s =>
        have hs : s = "" := by
          by_contra hne
          simp [strTruthy, hne] at h3
        subst hs
        have e2 : jsOr o2 (some "") = some "" := by simp [jsOr, h2]
        simp [extractImageDate, e1, e2]
  refine ⟨?_, ?_, ?_⟩
  · intro hlm
    rw [hmain]
    exact hfb lm hlm
  · intro hlm
    rw [hmain, hlm]
    rfl
  · intro hlm
    show dateFallback lm = JSDate.fromMillis lm
    exact hfb lm hlm

/-- C8 amended witness: all metadata date fields absent, last-modified
time 42. -/
theorem extractImageDate_fallback_witness :
    extractImageDate (some ⟨none, none, none⟩) 42 = JSDate.fromMillis 42 :=
  (extractImageDate_fallback ⟨none, none, none⟩ 42 rfl rfl rfl).1 (by decide)

/-! ## C2: upload progress callback values -/

/-- C2 counterexample: `uploadToPresignedUrl` computes
`(event.loaded / event.total) * 100`, a percentage, not a fraction: the
final progress event of a fully sent 1-byte body produces the callback
value `100`, which is not in `[0,1]`. -/
theorem uploadProgressCalls_unit_interval_cex :
    uploadProgressCalls [⟨true, 1, 1⟩] = [100] ∧ ¬ ((100 : ℚ) ≤ 1) := by
  constructor
  · show [(1 : ℚ) / 1 * 100] = [100]
    norm_num
  · norm_num

/-- C2 amended: for one transfer whose progress events share the body's
total byte count `T > 0`, have `0 ≤ loaded ≤ total`, and report
non-decreasing `loaded` values, every value passed to `onProgress` lies
in `[0,100]` (a percentage of bytes sent over bytes total) and the
passed values are monotonically non-decreasing. -/
theorem uploadProgressCalls_percent_monotone (events : List XhrProgressEvent)
    (T : ℚ) (hT : 0 < T)
    (hall : ∀ e ∈ events, e.total = T ∧ 0 ≤ e.loaded ∧ e.loaded ≤ e.total)
    (hmono : events.Pairwise (fun a b => a.loaded ≤ b.loaded)) :
    (∀ v ∈ uploadProgressCalls events, 0 ≤ v ∧ v ≤ 100) ∧
    (uploadProgressCalls events).Pairwise (· ≤ ·) := by
  constructor
  · intro v hv
    unfold uploadProgressCalls at hv
    simp only [List.mem_map] at hv
    obtain ⟨e, hef, rfl⟩ := hv
    obtain ⟨hTe, h0, hle⟩ := hall e (List.mem_of_mem_filter hef)
    have hTpos : 0 < e.total := hTe ▸ hT
    constructor
    · exact mul_nonneg (div_nonneg h0 (le_of_lt hTpos)) (by norm_num)
    · have hq : e.loaded / e.total ≤ 1 := (div_le_one hTpos).2 hle
      calc e.loaded / e.total * 100 ≤ 1 * 100 :=
            mul_le_mul_of_nonneg_right hq (by norm_num)
        _ = 100 := one_mul _
  · unfold uploadProgressCalls
    rw [List.pairwise_map]
    refine List.Pairwise.imp_of_mem ?_ (hmono.filter _)
    intro a b ha hb hab
    obtain ⟨hTa, h0a, _⟩ := hall a (List.mem_of_mem_filter ha)
    obtain ⟨hTb, _, _⟩ := hall b (List.mem_of_mem_filter hb)
    rw [hTa, hTb]
    have : a.loaded / T ≤ b.loaded / T := (div_le_div_iff_of_pos_right hT).2 hab
    exact mul_le_mul_of_nonneg_right this (by norm_num)

/-- C2 amended witness: two events of a 10-byte body at 0 and 5 bytes
sent. -/
theorem uploadProgressCalls_percent_monotone_witness :
    (∀ v ∈ uploadProgressCalls [⟨true, 0, 10⟩, ⟨true, 5, 10⟩], 0 ≤ v ∧ v ≤ 100) ∧
    (uploadProgressCalls [⟨true, 0, 10⟩, ⟨true, 5, 10⟩]).Pairwise (· ≤ ·) :=
  uploadProgressCalls_percent_monotone [⟨true, 0, 10⟩, ⟨true, 5, 10⟩] 10
    (by norm_num) (by decide) (by decide)

/-! ## Coordinator helper lemmas -/

/-- An ineligible file is skipped by the loop iteration: no state change,
no calls. -/
lemma stepFile_not_eligible (colls : List String) (fe : FileEnv) (i : ℕ)
    (f : UploadState) (h : isEligible f = false) :
    stepFile colls fe i f = (f, []) := by
  unfold stepFile
  unfold isEligible at h
  cases hp : f.processed with
  | none => rfl
  | some p =>
      rw [hp] at h
      simp only [Option.isSome_some, Bool.and_true, decide_eq_false_iff_not] at h
      simp [h]

/-- An eligible file is handed to `fileOutcome` with its payload. -/
lemma stepFile_eligible (colls : List String) (fe : FileEnv) (i : ℕ)
    (f : UploadState) (h : isEligible f = true) :
    ∃ p, f.processed = some p ∧
      stepFile colls fe i f = fileOutcome colls fe i p f := by
  unfold isEligible at h
  rw [Bool.and_eq_true, decide_eq_true_eq, Option.isSome_iff_exists] at h
  obtain ⟨hst, p, hp⟩ := h
  refine ⟨p, hp, ?_⟩
  unfold stepFile
  rw [hp]
  simp [hst]

/-- `fileOutcome` always lands in a terminal status. -/
lemma fileOutcome_settled (colls : List String) (fe : FileEnv) (i : ℕ)
    (p : ProcessedImage) (f : UploadState) :
    isSettled (fileOutcome colls fe i p f).1 = true := by
  rcases fe with ⟨u, ⟨oev, ook, oerr⟩, ⟨tev, took, terr⟩, ph⟩
  cases u <;> cases ook <;> cases took <;> cases ph <;>
    simp [fileOutcome, isSettled]

/-- Every event emitted for a file carries that file's index. -/
lemma fileOutcome_events_idx (colls : List String) (fe : FileEnv) (i : ℕ)
    (p : ProcessedImage) (f : UploadState) :
    ∀ e ∈ (fileOutcome colls fe i p f).2, e.idx = i := by
  rcases fe with ⟨u, ⟨oev, ook, oerr⟩, ⟨tev, took, terr⟩, ph⟩
  intro e he
  cases u <;> cases ook <;> cases took <;> cases ph <;>
    simp only [fileOutcome, List.mem_cons, List.not_mem_nil, or_false] at he <;>
    rcases he with rfl | rfl | rfl | rfl <;> rfl

/-- Exactly one acquisition call per processed file. -/
lemma fileOutcome_acquire_count (colls : List String) (fe : FileEnv) (i : ℕ)
    (p : ProcessedImage) (f : UploadState) :
    ((fileOutcome colls fe i p f).2.filter Event.isAcquire).length = 1 := by
  rcases fe with ⟨u, ⟨oev, ook, oerr⟩, ⟨tev, took, terr⟩, ph⟩
  cases u <;> cases ook <;> cases took <;> cases ph <;>
    simp [fileOutcome, Event.isAcquire, List.filter]

/-- Exactly two transfer calls when acquisition and both transfers
succeed. -/
lemma fileOutcome_transfer_count (colls : List String) (fe : FileEnv) (i : ℕ)
    (p : ProcessedImage) (f : UploadState) (hu : fe.urlOk = true)
    (ho : fe.orig.ok = true) (ht : fe.thumb.ok = true) :
    ((fileOutcome colls fe i p f).2.filter Event.isTransfer).length = 2 := by
  rcases fe with ⟨u, ⟨oev, ook, oerr⟩, ⟨tev, took, terr⟩, ph⟩
  simp only at hu ho ht
  subst hu ho ht
  cases ph <;> simp [fileOutcome, Event.isTransfer, List.filter]

/-- When the thumbnail transfer fails, no record-creation call is
emitted for that file. -/
lemma fileOutcome_thumb_fail_no_record (colls : List String) (fe : FileEnv)
    (i : ℕ) (p : ProcessedImage) (f : UploadState)
    (ht : fe.thumb.ok = false) :
    ∀ e ∈ (fileOutcome colls fe i p f).2, e.isCreateRecord = false := by
  rcases fe with ⟨u, ⟨oev, ook, oerr⟩, ⟨tev, took, terr⟩, ph⟩
  simp only at ht
  subst ht
  intro e he
  cases u <;> cases ook <;> cases ph <;>
    simp only [fileOutcome, List.mem_cons, List.not_mem_nil, or_false] at he <;>
    rcases he with rfl | rfl | rfl <;> rfl

/-- A transfer event always carries the fixed content type of its
payload kind. -/
def contentTypeRespected : Event → Prop
  | .transferOriginal _ ct => ct = "image/jpeg"
  | .transferThumbnail _ ct => ct = "image/webp"
  | _ => True

/-- Every event emitted for one file respects the fixed content types. -/
lemma fileOutcome_content_types (colls : List String) (fe : FileEnv) (i : ℕ)
    (p : ProcessedImage) (f : UploadState) :
    ∀ e ∈ (fileOutcome colls fe i p f).2, contentTypeRespected e := by
  rcases fe with ⟨u, ⟨oev, ook, oerr⟩, ⟨tev, took, terr⟩, ph⟩
  intro e he
  cases u <;> cases ook <;> cases took <;> cases ph <;>
    simp only [fileOutcome, List.mem_cons, List.not_mem_nil, or_false] at he <;>
    rcases he with rfl | rfl | rfl | rfl <;> trivial

/-- The final state of a failed-thumbnail file: `error` status, progress
frozen in `[50,100]`, exactly `50` when the failing transfer delivered
no progress callbacks. -/
lemma fileOutcome_thumb_fail_state (colls : List String) (fe : FileEnv)
    (i : ℕ) (p : ProcessedImage) (f : UploadState) (hu : fe.urlOk = true)
    (ho : fe.orig.ok = true) (hwf : fe.orig.WF) (ht : fe.thumb.ok = false)
    (htw : ∀ v ∈ fe.thumb.events, 0 ≤ v ∧ v ≤ 100) :
    (fileOutcome colls fe i p f).1.status = Status.error ∧
    50 ≤ (fileOutcome colls fe i p f).1.progress ∧
    (fileOutcome colls fe i p f).1.progress ≤ 100 ∧
    (fe.thumb.events = [] → (fileOutcome colls fe i p f).1.progress = 50) := by
  obtain ⟨-, -, hlast⟩ := hwf
  have h50 : applyProgress (fun v => v * (1 / 2)) f.progress fe.orig.events = 50 := by
    rw [applyProgress, hlast ho]
    norm_num
  unfold applyProgress at h50
  simp only [one_div] at h50
  rcases fe with ⟨u, ⟨oev, ook, oerr⟩, ⟨tev, took, terr⟩, ph⟩
  simp only at hu ho ht h50 htw
  subst hu ho ht
  cases tev with
  | nil =>
      cases ph <;>
        · simp [fileOutcome, applyProgress]
          exact ⟨ge_of_eq h50, h50.le.trans (by norm_num), h50⟩
  | cons v vs =>
      have hne : (v :: vs) ≠ [] := List.cons_ne_nil v vs
      have hwlast : (v :: vs).getLast? = some ((v :: vs).getLast hne) :=
        List.getLast?_eq_getLast_of_ne_nil hne
      obtain ⟨hw0, hw100⟩ := htw _ (List.getLast_mem hne)
      cases ph <;>
        simp [fileOutcome, h50, applyProgress, hwlast] <;>
        constructor <;> linarith

/-- Events of a skipped or processed file all carry its loop index. -/
lemma stepFile_events_idx (colls : List String) (fe : FileEnv) (i : ℕ)
    (f : UploadState) : ∀ e ∈ (stepFile colls fe i f).2, e.idx = i := by
  by_cases h : isEligible f = true
  · obtain ⟨p, hp, heq⟩ := stepFile_eligible colls fe i f h
    rw [heq]
    exact fileOutcome_events_idx colls fe i p f
  · rw [stepFile_not_eligible colls fe i f (by simpa using h)]
    intro e he
    simp at he

/-- A processed file's loop iteration ends in a terminal status. -/
lemma stepFile_settled (colls : List String) (fe : FileEnv) (i : ℕ)
    (f : UploadState) (h : isEligible f = true) :
    isSettled (stepFile colls fe i f).1 = true := by
  obtain ⟨p, hp, heq⟩ := stepFile_eligible colls fe i f h
  rw [heq]
  exact fileOutcome_settled colls fe i p f

/-- Sorted-append helper: a block of equal indices followed by a sorted
block of larger indices is sorted. -/
lemma pairwise_le_of_bounds {l₁ l₂ : List ℕ} {i : ℕ} (h1 : ∀ x ∈ l₁, x = i)
    (h2 : ∀ x ∈ l₂, i ≤ x) (hp : l₂.Pairwise (· ≤ ·)) :
    (l₁ ++ l₂).Pairwise (· ≤ ·) := by
  induction l₁ with
  | nil => exact hp
  | cons a as ih =>
      rw [List.cons_append, List.pairwise_cons]
      constructor
      · intro b hb
        rcases List.mem_append.1 hb with hb | hb
        · rw [h1 a (by simp), h1 b (List.mem_cons_of_mem _ hb)]
        · rw [h1 a (by simp)]
          exact h2 b hb
      · exact ih (fun x hx => h1 x (List.mem_cons_of_mem _ hx))

/-- The loop preserves the length of the file list. -/
lemma runLoop_length (colls : List String) :
    ∀ (i : ℕ) (fs : List UploadState) (fes : List FileEnv),
      (runLoop colls i fs fes).1.length = fs.length := by
  intro i fs
  induction fs generalizing i with
  | nil => intro fes; cases fes <;> rfl
  | cons f fs ih =>
      intro fes
      cases fes with
      | nil => rfl
      | cons fe fes => simp [runLoop, ih]

/-- With one environment outcome per file, every eligible file ends the
loop in a terminal status. -/
lemma runLoop_settled (colls : List String) :
    ∀ (i : ℕ) (fs : List UploadState) (fes : List FileEnv),
      fes.length = fs.length → (∀ f ∈ fs, isEligible f = true) →
      ∀ f' ∈ (runLoop colls i fs fes).1, isSettled f' = true := by
  intro i fs
  induction fs generalizing i with
  | nil =>
      intro fes _ _ f' hf'
      cases fes <;> simp [runLoop] at hf'
  | cons f fs ih =>
      intro fes hlen hall f' hf'
      cases fes with
      | nil => simp at hlen
      | cons fe fes =>
          simp only [runLoop, List.mem_cons] at hf'
          rcases hf' with rfl | hf'
          · exact stepFile_settled colls fe i f (hall f (by simp))
          · exact ih (i + 1) fes (by simpa using hlen)
              (fun x hx => hall x (List.mem_cons_of_mem _ hx)) f' hf'

/-- One acquisition call per eligible file. -/
lemma runLoop_acquire_count (colls : List String) :
    ∀ (i : ℕ) (fs : List UploadState) (fes : List FileEnv),
      fes.length = fs.length → (∀ f ∈ fs, isEligible f = true) →
      ((runLoop colls i fs fes).2.filter Event.isAcquire).length = fs.length := by
  intro i fs
  induction fs generalizing i with
  | nil => intro fes _ _; cases fes <;> simp [runLoop]
  | cons f fs ih =>
      intro fes hlen hall
      cases fes with
      | nil => simp at hlen
      | cons fe fes =>
          obtain ⟨p, hp, heq⟩ :=
            stepFile_eligible colls fe i f (hall f (by simp))
          simp only [runLoop, List.filter_append, List.length_append, heq]
          rw [fileOutcome_acquire_count colls fe i p f,
            ih (i + 1) fes (by simpa using hlen)
              (fun x hx => hall x (List.mem_cons_of_mem _ hx))]
          simp [List.length_cons, Nat.add_comm]

/-- Two transfer calls per eligible file when acquisition and both
transfers succeed for every file. -/
lemma runLoop_transfer_count (colls : List String) :
    ∀ (i : ℕ) (fs : List UploadState) (fes : List FileEnv),
      fes.length = fs.length → (∀ f ∈ fs, isEligible f = true) →
      (∀ fe ∈ fes, fe.urlOk = true ∧ fe.orig.ok = true ∧ fe.thumb.ok = true) →
      ((runLoop colls i fs fes).2.filter Event.isTransfer).length = 2 * fs.length := by
  intro i fs
  induction fs generalizing i with
  | nil => intro fes _ _ _; cases fes <;> simp [runLoop]
  | cons f fs ih =>
      intro fes hlen hall hok
      cases fes with
      | nil => simp at hlen
      | cons fe fes =>
          obtain ⟨p, hp, heq⟩ :=
            stepFile_eligible colls fe i f (hall f (by simp))
          obtain ⟨hu, ho, ht⟩ := hok fe (by simp)
          simp only [runLoop, List.filter_append, List.length_append, heq]
          rw [fileOutcome_transfer_count colls fe i p f hu ho ht,
            ih (i + 1) fes (by simpa using hlen)
              (fun x hx => hall x (List.mem_cons_of_mem _ hx))
              (fun x hx => hok x (List.mem_cons_of_mem _ hx))]
          simp [List.length_cons]
          ring

/-- Every event in the loop's trace carries an index at least the
starting index. -/
lemma runLoop_idx_ge (colls : List String) :
    ∀ (i : ℕ) (fs : List UploadState) (fes : List FileEnv),
      ∀ e ∈ (runLoop colls i fs fes).2, i ≤ e.idx := by
  intro i fs
  induction fs generalizing i with
  | nil => intro fes e he; cases fes <;> simp [runLoop] at he
  | cons f fs ih =>
      intro fes e he
      cases fes with
      | nil => simp [runLoop] at he
      | cons fe fes =>
          simp only [runLoop, List.mem_append] at he
          rcases he with he | he
          · exact le_of_eq (stepFile_events_idx colls fe i f e he).symm
          · exact le_trans (Nat.le_succ i) (ih (i + 1) fes e he)

/-- The trace is ordered by file index: all calls for file `i` precede
all calls for any later file. -/
lemma runLoop_idx_sorted (colls : List String) :
    ∀ (i : ℕ) (fs : List UploadState) (fes : List FileEnv),
      ((runLoop colls i fs fes).2.map Event.idx).Pairwise (· ≤ ·) := by
  intro i fs
  induction fs generalizing i with
  | nil => intro fes; cases fes <;> simp [runLoop]
  | cons f fs ih =>
      intro fes
      cases fes with
      | nil => simp [runLoop]
      | cons fe fes =>
          simp only [runLoop, List.map_append]
          refine pairwise_le_of_bounds (i := i) ?_ ?_ ?_
          · intro x hx
            obtain ⟨e, he, rfl⟩ := List.mem_map.1 hx
            exact stepFile_events_idx colls fe i f e he
          · intro x hx
            obtain ⟨e, he, rfl⟩ := List.mem_map.1 hx
            exact le_trans (Nat.le_succ i) (runLoop_idx_ge colls (i + 1) fs fes e he)
          · exact ih (i + 1) fes

/-- The final state of the `j`-th file is its own iteration's result. -/
lemma runLoop_get (colls : List String) :
    ∀ (i : ℕ) (fs : List UploadState) (fes : List FileEnv) (j : ℕ)
      (f : UploadState) (fe : FileEnv),
      fs.get? j = some f → fes.get? j = some fe →
      (runLoop colls i fs fes).1.get? j = some (stepFile colls fe (i + j) f).1 := by
  intro i fs
  induction fs generalizing i with
  | nil => intro fes j f fe hf _; simp at hf
  | cons f0 fs ih =>
      intro fes j f fe hf hfe
      cases fes with
      | nil => simp at hfe
      | cons fe0 fes =>
          cases j with
          | zero =>
              simp only [List.get?] at hf hfe
              cases hf
              cases hfe
              simp [runLoop]
          | succ j =>
              simp only [List.get?] at hf hfe
              have hstep := ih (i + 1) fes j f fe hf hfe
              have hidx : i + 1 + j = i + (j + 1) := by omega
              rw [hidx] at hstep
              simp only [runLoop, List.get?]
              exact hstep

/-- Every trace event originates from the iteration of the file whose
index it carries. -/
lemma runLoop_trace_src (colls : List String) :
    ∀ (i : ℕ) (fs : List UploadState) (fes : List FileEnv),
      ∀ e ∈ (runLoop colls i fs fes).2,
        ∃ j f fe, fs.get? j = some f ∧ fes.get? j = some fe ∧
          e ∈ (stepFile colls fe (i + j) f).2 := by
  intro i fs
  induction fs generalizing i with
  | nil => intro fes e he; cases fes <;> simp [runLoop] at he
  | cons f fs ih =>
      intro fes e he
      cases fes with
      | nil => simp [runLoop] at he
      | cons fe fes =>
          simp only [runLoop, List.mem_append] at he
          rcases he with he | he
          · exact ⟨0, f, fe, rfl, rfl, by simpa using he⟩
          · obtain ⟨j, f', fe', hf', hfe', he'⟩ := ih (i + 1) fes e he
            refine ⟨j + 1, f', fe', by simpa using hf', by simpa using hfe', ?_⟩
            have : i + 1 + j = i + (j + 1) := by omega
            rwa [this] at he'

/-! ## Concrete sample data for closed computations -/

/-- A derived payload as `processImage` would produce it. -/
def sampleProcessed : ProcessedImage :=
  ⟨"photo.jpg", "photo-thumb.webp", JSDate.fromMillis 1700000000000⟩

/-- A file that finished derivation and is ready for upload. -/
def sampleReadyFile : UploadState :=
  ⟨Status.pending, 0, none, some sampleProcessed⟩

/-- A file whose derivation is still in flight when upload is
triggered. -/
def sampleProcessingFile : UploadState :=
  ⟨Status.processing, 0, none, none⟩

/-- Environment where acquisition, both transfers (each reporting a
final 100% progress event) and record creation succeed. -/
def sampleEnvAllOk : FileEnv :=
  ⟨true, ⟨[100], true, ""⟩, ⟨[100], true, ""⟩, true⟩

/-- Environment where the `/api/upload` acquisition fetch fails. -/
def sampleEnvAcqRejected : FileEnv :=
  ⟨false, ⟨[], true, ""⟩, ⟨[], true, ""⟩, true⟩

/-- Environment where the original transfer succeeds and the thumbnail
transfer is rejected with an HTTP status after the whole body was sent
(so its final progress event reported 100%). -/
def sampleEnvThumbRejected : FileEnv :=
  ⟨true, ⟨[100], true, ""⟩,
   ⟨[100], false, "Error: Upload failed with status 403"⟩, true⟩

/-! ## C1: precondition rejection -/

/-- C1: if zero destination collections are selected, or no file is
`pending` with a derived payload, `handleUpload` rejects the whole batch
before any per-file work: the file list (statuses, progress, error
fields) is returned unchanged, the call trace is empty (no acquisition
and no transfer calls), and no completion is signalled. -/
theorem handleUpload_rejects_bad_precondition (colls : List String)
    (files : List UploadState) (env : List FileEnv)
    (h : colls.length = 0 ∨ (files.filter isEligible).length = 0) :
    (handleUpload colls files env).files = files ∧
    (handleUpload colls files env).trace = [] ∧
    (handleUpload colls files env).completed = false := by
  rcases h with h | h
  · simp [handleUpload, h]
  · by_cases hc : colls.length = 0 <;> simp [handleUpload, h, hc]

/-- C1 witness: one ready file but an empty collection selection. -/
theorem handleUpload_rejects_bad_precondition_witness :
    (handleUpload [] [sampleReadyFile] [sampleEnvAllOk]).files = [sampleReadyFile] ∧
    (handleUpload [] [sampleReadyFile] [sampleEnvAllOk]).trace = [] ∧
    (handleUpload [] [sampleReadyFile] [sampleEnvAllOk]).completed = false :=
  handleUpload_rejects_bad_precondition [] [sampleReadyFile] [sampleEnvAllOk]
    (Or.inl rfl)

/-! ## C3: completion signalling -/

/-- C3 counterexample: a batch where one file uploads to `done` but a
second file is still deriving (`processing`) does not invoke the
completion callback, because the code requires every file to be `done`
or `error` (`allDone`) in addition to at least one `done`. -/
theorem completion_requires_all_settled_cex :
    (∃ f ∈ (handleUpload ["c1"] [sampleReadyFile, sampleProcessingFile]
        [sampleEnvAllOk, sampleEnvAllOk]).files, f.status = Status.done) ∧
    (handleUpload ["c1"] [sampleReadyFile, sampleProcessingFile]
        [sampleEnvAllOk, sampleEnvAllOk]).completed = false := by
  decide

/-- C3 amended: after the loop, the completion callback fires iff every
file is in a terminal status (`done` or `error`) and at least one file
is `done`; when every file in the list was eligible, every file does end
terminal, so completion is equivalent to at least one `done`. -/
theorem completion_iff_all_settled_some_done (colls : List String)
    (files : List UploadState) (env : List FileEnv)
    (hc : colls.length ≠ 0) (hlen : env.length = files.length)
    (hall : ∀ f ∈ files, isEligible f = true) :
    (∀ f' ∈ (handleUpload colls files env).files, isSettled f' = true) ∧
    ((handleUpload colls files env).completed = true ↔
      ∃ f' ∈ (handleUpload colls files env).files, f'.status = Status.done) := by
  cases hfs : files with
  | nil =>
      subst hfs
      constructor
      · intro f' hf'
        simp [handleUpload, hc] at hf'
      · by_cases h0 : (List.filter isEligible []).length = 0 <;>
          simp [handleUpload, hc, h0]
  | cons f0 fs0 =>
      rw [← hfs]
      have hne : (files.filter isEligible).length ≠ 0 := by
        have hf0 : f0 ∈ files := by rw [hfs]; simp
        have : f0 ∈ files.filter isEligible :=
          List.mem_filter.2 ⟨hf0, hall f0 hf0⟩
        intro hzero
        rw [List.length_eq_zero] at hzero
        rw [hzero] at this
        simp at this
      have hdef : handleUpload colls files env =
          ⟨(runLoop colls 0 files env).1, (runLoop colls 0 files env).2,
            (runLoop colls 0 files env).1.all isSettled &&
            (runLoop colls 0 files env).1.any
              (fun f => decide (f.status = Status.done))⟩ := by
        unfold handleUpload
        rw [if_neg hc, if_neg hne]
      have hsettled : ∀ f' ∈ (runLoop colls 0 files env).1, isSettled f' = true :=
        runLoop_settled colls 0 files env hlen hall
      constructor
      · rw [hdef]
        exact hsettled
      · rw [hdef]
        simp only []
        rw [Bool.and_eq_true]
        constructor
        · rintro ⟨-, hany⟩
          obtain ⟨f', hf', hdone⟩ := List.any_eq_true.1 hany
          exact ⟨f', hf', of_decide_eq_true hdone⟩
        · rintro ⟨f', hf', hdone⟩
          refine ⟨List.all_eq_true.2 hsettled, List.any_eq_true.2 ⟨f', hf', ?_⟩⟩
          exact decide_eq_true hdone

/-- C3 amended witness: a single ready file that uploads successfully:
all files settled and completion fires because one file is `done`. -/
theorem completion_iff_all_settled_some_done_witness :
    (handleUpload ["c1"] [sampleReadyFile] [sampleEnvAllOk]).completed = true :=
  ((completion_iff_all_settled_some_done ["c1"] [sampleReadyFile] [sampleEnvAllOk]
      (by decide) rfl (by decide)).2).2 (by decide)

/-! ## C4: preview-transfer failure -/

/-- C4 counterexample: when the thumbnail transfer is rejected with an
HTTP status after its body was sent (its progress listener fired with
100%), the file ends in status `error` with progress 100, not 50, even
though the original transfer succeeded and the preview transfer failed. -/
theorem preview_failure_progress_cex :
    ((handleUpload ["c1"] [sampleReadyFile] [sampleEnvThumbRejected]).files.get? 0).map
        (fun f => (f.status, f.progress)) = some (Status.error, 100) ∧
    ((100 : ℚ) = 50) = False := by
  constructor
  · norm_num [handleUpload, isEligible, sampleReadyFile, sampleProcessed,
      sampleEnvThumbRejected, runLoop, stepFile, fileOutcome, applyProgress]
  · norm_num

/-- C4 amended: a file whose acquisition and original transfer succeeded
(the original transfer, by XHR semantics, having reported a final 100%
progress event) and whose preview transfer then fails ends the batch in
status `error` with progress frozen between 50 and 100 — exactly 50 when
the failing preview transfer delivered no progress callbacks — and no
record-creation call is issued for that file. -/
theorem preview_failure_state (colls : List String) (files : List UploadState)
    (env : List FileEnv) (j : ℕ) (f : UploadState) (fe : FileEnv)
    (p : ProcessedImage) (hc : colls.length ≠ 0)
    (hf : files.get? j = some f) (hfe : env.get? j = some fe)
    (hst : f.status = Status.pending) (hp : f.processed = some p)
    (hu : fe.urlOk = true) (ho : fe.orig.ok = true)
    (hwf : fe.orig.WF) (ht : fe.thumb.ok = false)
    (htw : ∀ v ∈ fe.thumb.events, 0 ≤ v ∧ v ≤ 100) :
    (∃ f', (handleUpload colls files env).files.get? j = some f' ∧
      f'.status = Status.error ∧
      50 ≤ f'.progress ∧ f'.progress ≤ 100 ∧
      (fe.thumb.events = [] → f'.progress = 50)) ∧
    (∀ e ∈ (handleUpload colls files env).trace,
      e.idx = j → e.isCreateRecord = false) := by
  have helig : isEligible f = true := by
    unfold isEligible
    rw [hst, hp]
    simp
  have hmem : f ∈ files := List.get?_mem hf
  have hne : (files.filter isEligible).length ≠ 0 := by
    have hin : f ∈ files.filter isEligible := List.mem_filter.2 ⟨hmem, helig⟩
    intro hzero
    rw [List.length_eq_zero] at hzero
    rw [hzero] at hin
    simp at hin
  have hdef : handleUpload colls files env =
      ⟨(runLoop colls 0 files env).1, (runLoop colls 0 files env).2,
        (runLoop colls 0 files env).1.all isSettled &&
        (runLoop colls 0 files env).1.any
          (fun f => decide (f.status = Status.done))⟩ := by
    unfold handleUpload
    rw [if_neg hc, if_neg hne]
  obtain ⟨p', hp', hstep⟩ := stepFile_eligible colls fe (0 + j) f helig
  have hpp : p' = p := by
    rw [hp] at hp'
    exact (Option.some_inj.1 hp').symm
  subst hpp
  constructor
  · refine ⟨(fileOutcome colls fe (0 + j) p' f).1, ?_, ?_⟩
    · rw [hdef]
      simp only []
      rw [runLoop_get colls 0 files env j f fe hf hfe, hstep]
    · exact fileOutcome_thumb_fail_state colls fe (0 + j) p' f hu ho hwf ht htw
  · intro e he hidx
    rw [hdef] at he
    simp only [] at he
    obtain ⟨j', f'', fe'', hf'', hfe'', he''⟩ :=
      runLoop_trace_src colls 0 files env e he
    have hidx' : e.idx = 0 + j' := stepFile_events_idx colls fe'' (0 + j') f'' e he''
    have hjj : j' = j := by omega
    rw [hjj] at hf'' hfe'' he''
    rw [hf] at hf''
    rw [hfe] at hfe''
    cases hf''
    cases hfe''
    rw [hstep] at he''
    exact fileOutcome_thumb_fail_no_record colls fe (0 + j) p' f ht e he''

/-- C4 amended witness: the thumbnail transfer fails with no progress
callbacks, so the file freezes at exactly 50. -/
theorem preview_failure_state_witness :
    (∃ f', (handleUpload ["c1"] [sampleReadyFile]
        [⟨true, ⟨[100], true, ""⟩, ⟨[], false, "Error: Upload failed"⟩, true⟩]).files.get? 0 =
          some f' ∧
      f'.status = Status.error ∧
      50 ≤ f'.progress ∧ f'.progress ≤ 100 ∧
      (([] : List ℚ) = [] → f'.progress = 50)) ∧
    (∀ e ∈ (handleUpload ["c1"] [sampleReadyFile]
        [⟨true, ⟨[100], true, ""⟩, ⟨[], false, "Error: Upload failed"⟩, true⟩]).trace,
      e.idx = 0 → e.isCreateRecord = false) :=
  preview_failure_state ["c1"] [sampleReadyFile]
    [⟨true, ⟨[100], true, ""⟩, ⟨[], false, "Error: Upload failed"⟩, true⟩]
    0 sampleReadyFile
    ⟨true, ⟨[100], true, ""⟩, ⟨[], false, "Error: Upload failed"⟩, true⟩
    sampleProcessed (by decide) rfl rfl rfl rfl rfl rfl
    ⟨by decide, by decide, fun _ => rfl⟩ rfl (by decide)

/-! ## C5: call counts and sequential ordering -/

/-- C5 counterexample: a batch of one file that derived successfully but
whose acquisition call is rejected issues zero transfer calls, not
`2 * N = 2`: the claimed transfer count does not hold unconditionally
for batches whose files all derived successfully. -/
theorem batch_counts_cex :
    ((handleUpload ["c1"] [sampleReadyFile] [sampleEnvAcqRejected]).trace.filter
        Event.isTransfer).length = 0 ∧
    (0 : ℕ) ≠ 2 * 1 := by
  constructor
  · decide
  · decide

/-- C5 amended: for a batch whose files all derived successfully (all
`pending` with payloads), one trigger issues exactly `N` acquisition
calls; it issues exactly `2 * N` transfer calls when every acquisition
and every transfer succeeds (fewer when a file fails early); the trace
is ordered by file index, so no call for file `i+1` is issued before
every call of file `i`; and every file ends in a terminal status
(`done` or `error`). -/
theorem batch_counts_and_order (colls : List String) (files : List UploadState)
    (env : List FileEnv) (hc : colls.length ≠ 0)
    (hlen : env.length = files.length)
    (hall : ∀ f ∈ files, isEligible f = true) :
    ((handleUpload colls files env).trace.filter Event.isAcquire).length =
      files.length ∧
    ((∀ fe ∈ env, fe.urlOk = true ∧ fe.orig.ok = true ∧ fe.thumb.ok = true) →
      ((handleUpload colls files env).trace.filter Event.isTransfer).length =
        2 * files.length) ∧
    ((handleUpload colls files env).trace.map Event.idx).Pairwise (· ≤ ·) ∧
    (∀ f' ∈ (handleUpload colls files env).files, isSettled f' = true) := by
  cases hfs : files with
  | nil =>
      subst hfs
      have hz : (List.filter isEligible ([] : List UploadState)).length = 0 := rfl
      refine ⟨?_, ?_, ?_, ?_⟩ <;>
        simp [handleUpload, hc, hz]
  | cons f0 fs0 =>
      rw [← hfs]
      have hne : (files.filter isEligible).length ≠ 0 := by
        have hf0 : f0 ∈ files := by rw [hfs]; simp
        have hin : f0 ∈ files.filter isEligible :=
          List.mem_filter.2 ⟨hf0, hall f0 hf0⟩
        intro hzero
        rw [List.length_eq_zero] at hzero
        rw [hzero] at hin
        simp at hin
      have hdef : handleUpload colls files env =
          ⟨(runLoop colls 0 files env).1, (runLoop colls 0 files env).2,
            (runLoop colls 0 files env).1.all isSettled &&
            (runLoop colls 0 files env).1.any
              (fun f => decide (f.status = Status.done))⟩ := by
        unfold handleUpload
        rw [if_neg hc, if_neg hne]
      rw [hdef]
      exact ⟨runLoop_acquire_count colls 0 files env hlen hall,
        fun hok => runLoop_transfer_count colls 0 files env hlen hall hok,
        runLoop_idx_sorted colls 0 files env,
        runLoop_settled colls 0 files env hlen hall⟩

/-- C5 amended witness: two ready files in a fully successful
environment: 2 acquisitions, 4 transfers, trace sorted by file index,
both files terminal. -/
theorem batch_counts_and_order_witness :
    ((handleUpload ["c1"] [sampleReadyFile, sampleReadyFile]
        [sampleEnvAllOk, sampleEnvAllOk]).trace.filter Event.isAcquire).length = 2 ∧
    ((∀ fe ∈ [sampleEnvAllOk, sampleEnvAllOk],
        fe.urlOk = true ∧ fe.orig.ok = true ∧ fe.thumb.ok = true) →
      ((handleUpload ["c1"] [sampleReadyFile, sampleReadyFile]
          [sampleEnvAllOk, sampleEnvAllOk]).trace.filter Event.isTransfer).length = 2 * 2) ∧
    ((handleUpload ["c1"] [sampleReadyFile, sampleReadyFile]
        [sampleEnvAllOk, sampleEnvAllOk]).trace.map Event.idx).Pairwise (· ≤ ·) ∧
    (∀ f' ∈ (handleUpload ["c1"] [sampleReadyFile, sampleReadyFile]
        [sampleEnvAllOk, sampleEnvAllOk]).files, isSettled f' = true) :=
  batch_counts_and_order ["c1"] [sampleReadyFile, sampleReadyFile]
    [sampleEnvAllOk, sampleEnvAllOk] (by decide) rfl (by decide)

/-! ## C10: fixed content types -/

/-- C10: regardless of the selected file's actual format, every transfer
call issued by the batch upload uses content type `"image/jpeg"` for the
full-resolution payload and `"image/webp"` for the preview payload, and
the server-side `generateUploadUrls` signs the original target with
`"image/jpeg"` and the thumbnail target with `"image/webp"`. -/
theorem content_types_fixed (colls : List String) (files : List UploadState)
    (env : List FileEnv) (fn tn : String) :
    (∀ e ∈ (handleUpload colls files env).trace, contentTypeRespected e) ∧
    (generateUploadUrls fn tn).1.contentType = "image/jpeg" ∧
    (generateUploadUrls fn tn).2.contentType = "image/webp" := by
  refine ⟨?_, rfl, rfl⟩
  intro e he
  unfold handleUpload at he
  by_cases hc : colls.length = 0
  · rw [if_pos hc] at he
    simp at he
  · rw [if_neg hc] at he
    by_cases hz : (files.filter isEligible).length = 0
    · rw [if_pos hz] at he
      simp at he
    · rw [if_neg hz] at he
      simp only [] at he
      obtain ⟨j, f, fe, hf, hfe, he'⟩ := runLoop_trace_src colls 0 files env e he
      by_cases helig : isEligible f = true
      · obtain ⟨p, hp, hstep⟩ := stepFile_eligible colls fe (0 + j) f helig
        rw [hstep] at he'
        exact fileOutcome_content_types colls fe (0 + j) p f e he'
      · rw [stepFile_not_eligible colls fe (0 + j) f (by simpa using helig)] at he'
        simp at he'

/-- C10 witness: in a concrete successful run the original-payload
transfer event carries `"image/jpeg"`. -/
theorem content_types_fixed_witness :
    contentTypeRespected (Event.transferOriginal 0 "image/jpeg") ∧
    (generateUploadUrls "photo.jpg" "photo-thumb.webp").1.contentType = "image/jpeg" :=
  ⟨(content_types_fixed ["c1"] [sampleReadyFile] [sampleEnvAllOk]
      "photo.jpg" "photo-thumb.webp").1
      (Event.transferOriginal 0 "image/jpeg") (by decide),
   (content_types_fixed ["c1"] [sampleReadyFile] [sampleEnvAllOk]
      "photo.jpg" "photo-thumb.webp").2.1⟩

/-! ## C6: error states and stale derivation indices

Replay of a concrete interleaving of `handleFileSelect`, derivation
callbacks and `removeFile`:

1. one file A is selected and finishes deriving (`pending` + payload);
2. two files B and C are selected together; B's derivation is still in
   flight (captured index 1), C's derivation fails (captured index 2),
   putting C into `error`;
3. the operator removes A (index 0) — permitted, A is `pending` — so B
   shifts to index 0 and C to index 1;
4. B's derivation completes and writes through its captured index 1,
   which now holds C: the `error` file C is overwritten to `pending`
   with B's payload by a derivation callback for another file. -/

/-- Payload produced for file A. -/
def samplePayloadA : ProcessedImage := ⟨"a.jpg", "a-thumb.webp", JSDate.fromMillis 10⟩

/-- Payload produced for file B. -/
def samplePayloadB : ProcessedImage := ⟨"b.jpg", "b-thumb.webp", JSDate.fromMillis 20⟩

/-- Step 0: empty modal. -/
def scenario0 : ModalState := ⟨[], []⟩

/-- Step 1: select A. -/
def scenario1 : ModalState := selectFiles scenario0 [DeriveOutcome.ok samplePayloadA]

/-- Step 2: A's derivation completes. -/
def scenario2 : ModalState := fireTask scenario1 0

/-- Step 3: select B and C together (B will succeed, C will fail). -/
def scenario3 : ModalState :=
  selectFiles scenario2
    [DeriveOutcome.ok samplePayloadB,
     DeriveOutcome.fail "Error: Failed to load image"]

/-- Step 4: C's derivation fails, putting C (index 2) into `error`. -/
def scenario4 : ModalState := fireTask scenario3 1

/-- Step 5: the operator removes A (index 0, status `pending`). -/
def scenario5 : ModalState := removeFileOp scenario4 0

/-- Step 6: B's derivation completes and writes through its stale
captured index 1 — which now holds the `error` file C. -/
def scenario6 : ModalState := fireTask scenario5 0

/-- C6: a derivation completion callback for file B moves file C out of
`error` into `pending` (handing it B's payload), although only operator
actions are supposed to affect an `error` file.  Before the callback the
file at index 1 is C in status `error`; after it, the same slot is
`pending` with B's derived payload. -/
theorem stale_index_clobbers_error_file :
    ((scenario5.files.get? 1).map (fun f => f.status) = some Status.error) ∧
    (scenario6 = fireTask scenario5 0) ∧
    ((scenario6.files.get? 1).map (fun f => f.status) = some Status.pending) ∧
    ((scenario6.files.get? 1).map (fun f => f.processed) =
      some (some samplePayloadB)) := by
  refine ⟨?_, rfl, ?_, ?_⟩ <;> decide

end Gallery
